import Mathlib

/-!
Verification development for the BoringTrade trading bot.

Shallow embedding of the core data model (`models/candle.py`, `models/trade.py`,
`models/level.py`, `models/asset.py`) and of the operations the specification
speaks about (`utils/risk_manager.py`, `data/candle_builder.py`,
`data/data_feed.py`, `strategies/orb_strategy.py`,
`strategies/base_strategy.py`).

Conventions of the embedding:
* Python `float` values are modelled as rationals (`ℚ`).
* `datetime` values are modelled as natural numbers (seconds); `date` keys of
  the risk manager's per-day trade registry are modelled as natural numbers.
* Python dictionaries keyed by date are modelled as total functions from the
  key type to the stored value, empty lists standing for missing keys (the
  Python code inserts an empty list before every read, so the two agree).
* Log calls are dropped; the reason strings returned by the risk manager keep
  the fixed text of the source but drop the printf-style number formatting
  of interpolated values where noted.
* Exceptions raised by registered callbacks are modelled with `Except`.
-/

/-- Python `int(x)` applied to a float: truncation toward zero. -/
def pyInt (q : ℚ) : ℤ := if 0 ≤ q then ⌊q⌋ else ⌈q⌉

/-- Candle data model, from `models/candle.py` (`Candle.__init__`).
`timestamp` is the start time in seconds; `timeframe` is in minutes. -/
structure Candle where
  symbol : String
  timestamp : ℕ
  open_price : ℚ
  high_price : ℚ
  low_price : ℚ
  close_price : ℚ
  volume : ℚ
  timeframe : ℕ
  is_complete : Bool
deriving Repr, DecidableEq

/-- Trade direction, from `models/trade.py`. -/
inductive TradeDirection
  | LONG
  | SHORT
deriving Repr, DecidableEq

/-- Trade status, from `models/trade.py`. -/
inductive TradeStatus
  | PENDING
  | OPEN
  | CLOSED
  | CANCELLED
  | REJECTED
deriving Repr, DecidableEq

/-- Trade result, from `models/trade.py`. -/
inductive TradeResult
  | WIN
  | LOSS
  | BREAKEVEN
  | UNKNOWN
deriving Repr, DecidableEq

/-- One recorded partial exit of a trade: the dictionary appended by
`Trade.add_partial_exit` in `models/trade.py`. -/
structure PartialExit where
  price : ℚ
  quantity : ℚ
  time : ℕ
  reason : Option String
deriving Repr, DecidableEq

/-- Trade data model, from `models/trade.py` (`Trade.__init__`).
The `trade_id`/`broker_order_id` strings and the optional originating
`Level` are bookkeeping not read by any claimed property and are omitted. -/
structure Trade where
  symbol : String
  direction : TradeDirection
  strategy_name : String
  entry_price : Option ℚ := none
  stop_loss : Option ℚ := none
  take_profit : Option ℚ := none
  quantity : ℚ := 1
  entry_time : Option ℕ := none
  exit_price : Option ℚ := none
  exit_time : Option ℕ := none
  status : TradeStatus := TradeStatus.PENDING
  result : TradeResult := TradeResult.UNKNOWN
  notes : Option String := none
  partial_exits : List PartialExit := []
deriving Repr, DecidableEq

namespace Trade

/-- `Trade.is_open` from `models/trade.py`. -/
def is_open (t : Trade) : Bool := t.status = TradeStatus.OPEN

/-- `Trade.is_closed` from `models/trade.py`. -/
def is_closed (t : Trade) : Bool := t.status = TradeStatus.CLOSED

/-- `Trade.profit_loss` from `models/trade.py`: per-unit profit, `None`
until both entry and exit price are set. -/
def profit_loss (t : Trade) : Option ℚ :=
  match t.entry_price, t.exit_price with
  | some e, some x =>
      some (match t.direction with
            | TradeDirection.LONG => x - e
            | TradeDirection.SHORT => e - x)
  | _, _ => none

/-- Total quantity recorded across the partial exits of a trade
(the sums computed inline in `Trade.profit_loss_amount`). -/
def exited_quantity (t : Trade) : ℚ :=
  (t.partial_exits.map PartialExit.quantity).sum

/-- `Trade.profit_loss_amount` from `models/trade.py`: P&L weighted across
the partial exits plus the final exit of the remaining quantity. -/
def profit_loss_amount (t : Trade) : Option ℚ :=
  match t.entry_price, t.exit_price with
  | some e, some x =>
      let dirPL : ℚ → ℚ := fun price =>
        match t.direction with
        | TradeDirection.LONG => price - e
        | TradeDirection.SHORT => e - price
      let partial_pl := (t.partial_exits.map (fun pe => pe.quantity * dirPL pe.price)).sum
      let remaining_quantity := t.quantity - t.exited_quantity
      some (partial_pl + dirPL x * remaining_quantity)
  | _, _ => none

/-- `Trade.add_partial_exit` from `models/trade.py`: appends the exit record
unconditionally. -/
def add_partial_exit (t : Trade) (price quantity : ℚ) (time : ℕ)
    (reason : Option String := none) : Trade :=
  { t with partial_exits := t.partial_exits ++ [⟨price, quantity, time, reason⟩] }

end Trade

/-- Level types, from `models/level.py`. -/
inductive LevelType
  | OPENING_RANGE_HIGH
  | OPENING_RANGE_LOW
  | PREVIOUS_DAY_HIGH
  | PREVIOUS_DAY_LOW
  | BULLISH_ORDER_BLOCK
  | BEARISH_ORDER_BLOCK
  | SESSION_HIGH
  | SESSION_LOW
  | CUSTOM
deriving Repr, DecidableEq

/-- Price level data model, from `models/level.py` (`Level.__init__`), after
the constructor has defaulted absent zone bounds to the level price.  The
`breaks`/`retests` record lists are kept by the strategy state model where
they are written. -/
structure Level where
  symbol : String
  price : ℚ
  level_type : LevelType
  timestamp : ℕ
  zone_high : ℚ
  zone_low : ℚ
  is_active : Bool := true
deriving Repr, DecidableEq

namespace Level

/-- `Level.__init__` from `models/level.py`: `zone_high`/`zone_low` default
to `price` when not supplied. -/
def mk_level (symbol : String) (price : ℚ) (level_type : LevelType)
    (timestamp : ℕ) (zone_high zone_low : Option ℚ := none)
    (is_active : Bool := true) : Level :=
  { symbol := symbol
    price := price
    level_type := level_type
    timestamp := timestamp
    zone_high := zone_high.getD price
    zone_low := zone_low.getD price
    is_active := is_active }

/-- `Level.is_zone` from `models/level.py`. -/
def is_zone (l : Level) : Bool := l.zone_high ≠ l.zone_low

/-- `Level.is_broken_above` from `models/level.py`, lines 96-109. -/
def is_broken_above (l : Level) (price : ℚ) (threshold : ℚ := 0) : Bool :=
  if l.is_zone then price > l.zone_high + threshold
  else price > l.price + threshold

/-- `Level.is_broken_below` from `models/level.py`, lines 111-124. -/
def is_broken_below (l : Level) (price : ℚ) (threshold : ℚ := 0) : Bool :=
  if l.is_zone then price < l.zone_low - threshold
  else price < l.price - threshold

end Level

/-- The slice of `models/asset.py` read by the risk manager:
`Asset.is_futures` is `asset_type == AssetType.FUTURES`, folded here into a
boolean field, and the futures price `multiplier`. -/
structure Asset where
  symbol : String
  is_futures : Bool
  multiplier : ℚ
deriving Repr, DecidableEq

/-- The effective futures multiplier applied by
`RiskManager.calculate_position_size` (`utils/risk_manager.py`, lines 87-93):
`asset.multiplier` when an asset is supplied and it is a futures contract,
otherwise `1.0`. -/
def assetMultiplier : Option Asset → ℚ
  | some a => if a.is_futures then a.multiplier else 1
  | none => 1

/-- Risk manager state, from `utils/risk_manager.py` (`RiskManager.__init__`).
`trades_by_date` models the date-keyed dictionary of registered trades. -/
structure RiskManager where
  risk_per_trade : ℚ := 1 / 100
  max_daily_loss : ℚ := 3 / 100
  max_daily_profit : Option ℚ := none
  max_trades_per_day : ℕ := 3
  trades_by_date : ℕ → List Trade := fun _ => []
  initial_equity : Option ℚ := none
  current_equity : Option ℚ := none

namespace RiskManager

/-- `RiskManager.set_account_equity` from `utils/risk_manager.py`. -/
def set_account_equity (rm : RiskManager) (equity : ℚ) : RiskManager :=
  { rm with
    initial_equity := match rm.initial_equity with
      | none => some equity
      | some e => some e
    current_equity := some equity }

/-- `RiskManager.calculate_position_size` from `utils/risk_manager.py`,
lines 59-121: floor the affordable size, clamp to `max_contracts`, raise to
at least one contract, and report the resulting risk amount. -/
def calculate_position_size (rm : RiskManager) (_symbol : String)
    (entry_price stop_loss : ℚ) (max_contracts : Option ℤ := none)
    (asset : Option Asset := none) : ℤ × ℚ :=
  match rm.current_equity with
  | none => (1, |entry_price - stop_loss|)
  | some equity =>
      let price_difference := |entry_price - stop_loss|
      let multiplier := assetMultiplier asset
      let risk_per_contract := price_difference * multiplier
      let max_risk_amount := equity * rm.risk_per_trade
      let position_size : ℤ :=
        if risk_per_contract > 0 then pyInt (max_risk_amount / risk_per_contract)
        else 1
      let position_size : ℤ :=
        match max_contracts with
        | some mc => if position_size > mc then mc else position_size
        | none => position_size
      let position_size : ℤ := max 1 position_size
      (position_size, (position_size : ℚ) * risk_per_contract)

/-- Today's realized P&L as summed by `RiskManager.can_place_trade`
(`utils/risk_manager.py`, lines 160-165): `profit_loss_amount or 0` over the
closed trades registered for the day. -/
def todayPL (today_trades : List Trade) : ℚ :=
  ((today_trades.filter (fun t => t.is_closed)).map
    (fun t => t.profit_loss_amount.getD 0)).sum

/-- `RiskManager.can_place_trade` from `utils/risk_manager.py`, lines 123-194.
The interpolated numbers of the reason strings are dropped (only their fixed
text is kept). -/
def can_place_trade (rm : RiskManager) (today : ℕ) (_symbol : String)
    (risk_amount : ℚ) (_strategy_name : String) : Bool × String :=
  let today_trades := rm.trades_by_date today
  if rm.max_trades_per_day ≤ today_trades.length then
    (false, "Maximum trades per day reached")
  else
    match rm.current_equity with
    | none => (true, "")
    | some equity =>
        let today_pl := todayPL today_trades
        let max_loss_amount := equity * rm.max_daily_loss
        if today_pl < -max_loss_amount then
          (false, "Maximum daily loss reached")
        else
          let profit_reject : Bool :=
            match rm.max_daily_profit with
            | some mdp => decide (today_pl > equity * mdp)
            | none => false
          if profit_reject then
            (false, "Maximum daily profit reached")
          else
            let max_risk_amount := equity * rm.risk_per_trade
            if risk_amount > max_risk_amount then
              (false, "Risk amount exceeds maximum risk per trade")
            else
              (true, "")

/-- `RiskManager.register_trade` from `utils/risk_manager.py`: appends the
trade under its entry date (today when the entry time is unset). -/
def register_trade (rm : RiskManager) (today : ℕ) (trade : Trade) : RiskManager :=
  let trade_date := trade.entry_time.getD today
  { rm with
    trades_by_date := fun d =>
      if d = trade_date then rm.trades_by_date d ++ [trade]
      else rm.trades_by_date d }

end RiskManager

/-! Concrete fixtures used by counterexamples and witnesses. -/

/-- A closed long trade entered at 100 and exited at 70 with quantity 1:
its realized P&L is exactly -30. -/
def tradeLoss30 : Trade :=
  { symbol := "SPY"
    direction := TradeDirection.LONG
    strategy_name := "ORB"
    entry_price := some 100
    exit_price := some 70
    quantity := 1
    status := TradeStatus.CLOSED }

/-- A risk manager with equity 1000, 1% risk per trade, 3% max daily loss,
and exactly the trade `tradeLoss30` registered for every day. -/
def rmDailyLoss : RiskManager :=
  { risk_per_trade := 1 / 100
    max_daily_loss := 3 / 100
    max_daily_profit := none
    max_trades_per_day := 3
    trades_by_date := fun _ => [tradeLoss30]
    initial_equity := some 1000
    current_equity := some 1000 }

/-- A risk manager with equity 1000 and 1% risk per trade and no registered
trades. -/
def rmUnitRisk : RiskManager :=
  { risk_per_trade := 1 / 100
    max_daily_loss := 3 / 100
    max_daily_profit := none
    max_trades_per_day := 3
    trades_by_date := fun _ => []
    initial_equity := some 1000
    current_equity := some 1000 }

/-- A risk manager capped at a single trade per day, with `tradeLoss30`
already registered and no account equity set. -/
def rmOneTradeCap : RiskManager :=
  { risk_per_trade := 1 / 100
    max_daily_loss := 3 / 100
    max_daily_profit := none
    max_trades_per_day := 1
    trades_by_date := fun _ => [tradeLoss30]
    initial_equity := none
    current_equity := none }

/-- A risk manager with no equity set and no registered trades. -/
def rmNoEquity : RiskManager :=
  { risk_per_trade := 1 / 100
    max_daily_loss := 3 / 100
    max_daily_profit := none
    max_trades_per_day := 3
    trades_by_date := fun _ => []
    initial_equity := none
    current_equity := none }

/-- Normal form of `calculate_position_size` once the account equity is set:
floor, clamp to `max_contracts`, raise to one, and report `units × per-unit
risk`. -/
theorem calculate_position_size_eq (rm : RiskManager) (symbol : String)
    (entry_price stop_loss : ℚ) (max_contracts : Option ℤ) (asset : Option Asset)
    (equity : ℚ) (heq : rm.current_equity = some equity) :
    rm.calculate_position_size symbol entry_price stop_loss max_contracts asset =
      (let rpc := |entry_price - stop_loss| * assetMultiplier asset
       let raw : ℤ := if rpc > 0 then pyInt (equity * rm.risk_per_trade / rpc) else 1
       let clamped : ℤ :=
         match max_contracts with
         | some m => if raw > m then m else raw
         | none => raw
       (max 1 clamped, ((max 1 clamped : ℤ) : ℚ) * rpc)) := by
  simp only [RiskManager.calculate_position_size, heq]
  rfl

/-- C1 (amended): with account equity set, `calculate_position_size` returns
at least one unit; at most `max_contracts` units whenever a positive
`max_contracts` is supplied; exactly one unit when the per-unit risk
`|entry - stop| * multiplier` is zero; a risk amount equal to
`units * per-unit risk`; and hence, for a nonnegative multiplier, a risk
amount monotonically non-decreasing in the returned unit count. -/
theorem calculate_position_size_spec (rm : RiskManager) (symbol : String)
    (entry_price stop_loss : ℚ) (max_contracts : Option ℤ) (asset : Option Asset)
    (equity : ℚ) (heq : rm.current_equity = some equity) :
    1 ≤ (rm.calculate_position_size symbol entry_price stop_loss max_contracts asset).1
    ∧ (∀ mc : ℤ, max_contracts = some mc → 1 ≤ mc →
        (rm.calculate_position_size symbol entry_price stop_loss max_contracts asset).1 ≤ mc)
    ∧ (|entry_price - stop_loss| * assetMultiplier asset = 0 →
        (rm.calculate_position_size symbol entry_price stop_loss max_contracts asset).1 = 1)
    ∧ (rm.calculate_position_size symbol entry_price stop_loss max_contracts asset).2
        = (((rm.calculate_position_size symbol entry_price stop_loss max_contracts asset).1 : ℤ) : ℚ)
          * (|entry_price - stop_loss| * assetMultiplier asset)
    ∧ (0 ≤ assetMultiplier asset →
        ∀ (rm2 : RiskManager) (equity2 : ℚ), rm2.current_equity = some equity2 →
          (rm.calculate_position_size symbol entry_price stop_loss max_contracts asset).1
            ≤ (rm2.calculate_position_size symbol entry_price stop_loss max_contracts asset).1 →
          (rm.calculate_position_size symbol entry_price stop_loss max_contracts asset).2
            ≤ (rm2.calculate_position_size symbol entry_price stop_loss max_contracts asset).2) := by
  rw [calculate_position_size_eq rm symbol entry_price stop_loss max_contracts asset equity heq]
  refine ⟨le_max_left _ _, ?_, ?_, rfl, ?_⟩
  · intro mc hmc hm
    subst hmc
    dsimp only
    refine max_le hm ?_
    split <;> omega
  · intro hz
    dsimp only
    rw [hz]
    have : ¬ ((0 : ℚ) > 0) := lt_irrefl 0
    rw [if_neg this]
    cases max_contracts with
    | none => simp
    | some m => dsimp only; split <;> omega
  · intro hmult rm2 equity2 heq2 hle
    rw [calculate_position_size_eq rm2 symbol entry_price stop_loss max_contracts asset equity2 heq2] at hle ⊢
    dsimp only at hle ⊢
    have hrpc : (0 : ℚ) ≤ |entry_price - stop_loss| * assetMultiplier asset :=
      mul_nonneg (abs_nonneg _) hmult
    exact mul_le_mul_of_nonneg_right (by exact_mod_cast hle) hrpc

/-- C1 witness: the amended bounds evaluated at a concrete manager
(equity 1000, risk 1%, entry 100, stop 99, max five contracts). -/
theorem calculate_position_size_spec_witness :
    1 ≤ (rmUnitRisk.calculate_position_size "SPY" 100 99 (some 5) none).1
    ∧ (rmUnitRisk.calculate_position_size "SPY" 100 99 (some 5) none).1 ≤ 5 := by
  have h := calculate_position_size_spec rmUnitRisk "SPY" 100 99 (some 5) none 1000 rfl
  exact ⟨h.1, h.2.1 5 rfl (by norm_num)⟩

/-- C1 counterexample: with `max_contracts = 0` supplied, the returned unit
count is 1, which exceeds `max_contracts` — the final `max(1, ·)` overrides
the clamp. -/
theorem calculate_position_size_exceeds_zero_cap :
    (rmUnitRisk.calculate_position_size "SPY" 100 99 (some 0) none).1 = 1
    ∧ ¬ ((rmUnitRisk.calculate_position_size "SPY" 100 99 (some 0) none).1 ≤ 0) := by
  have h : rmUnitRisk.calculate_position_size "SPY" 100 99 (some 0) none =
      (1, 1) := by
    rw [calculate_position_size_eq rmUnitRisk "SPY" 100 99 (some 0) none 1000 rfl]
    norm_num [pyInt, assetMultiplier, rmUnitRisk]
  rw [h]
  norm_num

/-- C2 (amended): with equity set, `can_place_trade` rejects whenever
today's realized P&L is strictly below `-equity * max_daily_loss` (the code
compares with strict `<`, so a loss exactly at the cap still passes). -/
theorem can_place_trade_rejects_strict_daily_loss (rm : RiskManager)
    (today : ℕ) (symbol : String) (risk_amount : ℚ) (strategy_name : String)
    (equity : ℚ) (heq : rm.current_equity = some equity)
    (hpl : RiskManager.todayPL (rm.trades_by_date today)
             < -(equity * rm.max_daily_loss)) :
    (rm.can_place_trade today symbol risk_amount strategy_name).1 = false := by
  unfold RiskManager.can_place_trade
  by_cases hc : rm.max_trades_per_day ≤ (rm.trades_by_date today).length
  · simp [hc]
  · simp [hc, heq, hpl]

/-- C2 witness: a concrete manager one cent past the loss cap is rejected. -/
theorem can_place_trade_rejects_strict_daily_loss_witness :
    ((rmDailyLoss.set_account_equity 900).can_place_trade 0 "SPY" 1 "ORB").1
      = false := by
  refine can_place_trade_rejects_strict_daily_loss _ 0 "SPY" 1 "ORB" 900 rfl ?_
  norm_num [RiskManager.todayPL, RiskManager.set_account_equity, rmDailyLoss,
    tradeLoss30, Trade.profit_loss_amount, Trade.is_closed, Trade.exited_quantity]

/-- C2 counterexample: equity 1000, `max_daily_loss = 3%`, and a closed trade
with realized P&L exactly -30 — the loss equals the cap, yet
`can_place_trade` still allows the next trade, because the code rejects only
on strictly exceeding the cap. -/
theorem can_place_trade_at_exact_loss_cap_allows :
    RiskManager.todayPL (rmDailyLoss.trades_by_date 0)
        = -(1000 * (3 / 100 : ℚ))
    ∧ rmDailyLoss.can_place_trade 0 "SPY" 1 "ORB" = (true, "") := by
  have hpl : RiskManager.todayPL [tradeLoss30] = -30 := by
    norm_num [RiskManager.todayPL, tradeLoss30,
      Trade.profit_loss_amount, Trade.is_closed, Trade.exited_quantity]
  constructor
  · show RiskManager.todayPL [tradeLoss30] = -(1000 * (3 / 100 : ℚ))
    rw [hpl]; norm_num
  · unfold RiskManager.can_place_trade
    norm_num [rmDailyLoss, hpl]

/-- C3: once today's registered trade count has reached
`max_trades_per_day`, `can_place_trade` rejects with a non-empty reason. -/
theorem can_place_trade_rejects_at_trade_cap (rm : RiskManager) (today : ℕ)
    (symbol : String) (risk_amount : ℚ) (strategy_name : String)
    (h : (rm.trades_by_date today).length = rm.max_trades_per_day) :
    (rm.can_place_trade today symbol risk_amount strategy_name).1 = false
    ∧ (rm.can_place_trade today symbol risk_amount strategy_name).2 ≠ "" := by
  have hle : rm.max_trades_per_day ≤ (rm.trades_by_date today).length := h.ge
  unfold RiskManager.can_place_trade
  rw [if_pos hle]
  exact ⟨rfl, by decide⟩

/-- C3 witness: a manager capped at one trade per day with one registered
trade denies the next request with a non-empty reason. -/
theorem can_place_trade_rejects_at_trade_cap_witness :
    (rmOneTradeCap.can_place_trade 0 "SPY" 1 "ORB").1 = false
    ∧ (rmOneTradeCap.can_place_trade 0 "SPY" 1 "ORB").2 ≠ "" :=
  can_place_trade_rejects_at_trade_cap rmOneTradeCap 0 "SPY" 1 "ORB" rfl

/-- C10: while the account equity has never been set, `can_place_trade`
returns `(true, "")` whenever today's registered trade count is below
`max_trades_per_day`: the daily-loss, daily-profit, and per-trade-risk
checks are all skipped. -/
theorem can_place_trade_allows_without_equity (rm : RiskManager) (today : ℕ)
    (symbol : String) (risk_amount : ℚ) (strategy_name : String)
    (heq : rm.current_equity = none)
    (hcount : (rm.trades_by_date today).length < rm.max_trades_per_day) :
    rm.can_place_trade today symbol risk_amount strategy_name = (true, "") := by
  have hlt : ¬ rm.max_trades_per_day ≤ (rm.trades_by_date today).length := by
    omega
  unfold RiskManager.can_place_trade
  rw [if_neg hlt, heq]

/-- C10 witness: with no equity set, an arbitrarily large risk amount is
still allowed. -/
theorem can_place_trade_allows_without_equity_witness :
    rmNoEquity.can_place_trade 0 "SPY" 1000000 "ORB" = (true, "") :=
  can_place_trade_allows_without_equity rmNoEquity 0 "SPY" 1000000 "ORB" rfl
    (by norm_num [rmNoEquity])

/-- A bare (non-zone) level at price 100, as built by `Level.__init__` with
no zone bounds. -/
def levelBare100 : Level :=
  Level.mk_level "SPY" 100 LevelType.OPENING_RANGE_HIGH 0

/-- C6 (amended): `is_broken_above` holds iff the price strictly exceeds the
zone's upper boundary (or the bare level price) offset by `threshold` taken
as an absolute price offset, and `is_broken_below` holds iff the price is
strictly below the zone's lower boundary (or the bare price) minus that
absolute offset. -/
theorem is_broken_above_below_absolute_threshold (l : Level)
    (price threshold : ℚ) :
    (l.is_broken_above price threshold = true ↔
      price > (if l.is_zone then l.zone_high else l.price) + threshold)
    ∧ (l.is_broken_below price threshold = true ↔
      price < (if l.is_zone then l.zone_low else l.price) - threshold) := by
  unfold Level.is_broken_above Level.is_broken_below
  constructor <;> split <;> simp

/-- C6 counterexample: for the bare level at 100 and threshold `1/2`,
`is_broken_above 120` is true, yet under the claimed fraction-of-price
reading the cutoff would be `100 + 100 * (1/2) = 150`, which 120 does not
exceed — the method treats the threshold as an absolute offset. -/
theorem is_broken_above_fractional_reading_fails :
    levelBare100.is_broken_above 120 (1 / 2) = true
    ∧ ¬ ((120 : ℚ) > levelBare100.price + levelBare100.price * (1 / 2)) := by
  constructor
  · norm_num [levelBare100, Level.mk_level, Level.is_broken_above, Level.is_zone]
  · norm_num [levelBare100, Level.mk_level]

/-- Recording a partial exit adds its quantity to the total exited quantity
and leaves the trade's total quantity unchanged. -/
theorem exited_quantity_add_partial_exit (t : Trade) (price quantity : ℚ)
    (time : ℕ) (reason : Option String) :
    (t.add_partial_exit price quantity time reason).exited_quantity
      = t.exited_quantity + quantity := by
  simp [Trade.add_partial_exit, Trade.exited_quantity]

/-- The discipline `add_partial_exit` itself never checks: each recorded
exit takes at most the quantity still remaining when it is recorded. -/
def validExitSeq : ℚ → List PartialExit → Prop
  | _, [] => True
  | remaining, pe :: pes =>
      pe.quantity ≤ remaining ∧ validExitSeq (remaining - pe.quantity) pes

/-- A sequence of `add_partial_exit` calls, in order. -/
def applyPartialExits (t : Trade) (pes : List PartialExit) : Trade :=
  pes.foldl (fun t pe => t.add_partial_exit pe.price pe.quantity pe.time pe.reason) t

/-- C9 (amended): `add_partial_exit` performs no validation of its own, so
the invariant holds exactly when the callers respect it: if the already
recorded exits fit in the total quantity and every further exit takes at
most the quantity still remaining when it is recorded, then the total
quantity partially exited never exceeds the trade's total quantity. -/
theorem exited_quantity_le_quantity (t : Trade) (pes : List PartialExit)
    (h0 : t.exited_quantity ≤ t.quantity)
    (hv : validExitSeq (t.quantity - t.exited_quantity) pes) :
    (applyPartialExits t pes).exited_quantity
      ≤ (applyPartialExits t pes).quantity := by
  induction pes generalizing t with
  | nil => exact h0
  | cons pe pes ih =>
      obtain ⟨hle, hv2⟩ := hv
      have hstep : applyPartialExits t (pe :: pes)
          = applyPartialExits
              (t.add_partial_exit pe.price pe.quantity pe.time pe.reason) pes := rfl
      rw [hstep]
      refine ih _ ?_ ?_
      · rw [exited_quantity_add_partial_exit]
        have : pe.quantity ≤ t.quantity - t.exited_quantity := hle
        show t.exited_quantity + pe.quantity ≤ t.quantity
        linarith
      · rw [exited_quantity_add_partial_exit]
        have hq : (t.add_partial_exit pe.price pe.quantity pe.time pe.reason).quantity
            = t.quantity := rfl
        rw [hq, show t.quantity - (t.exited_quantity + pe.quantity)
            = t.quantity - t.exited_quantity - pe.quantity by ring]
        exact hv2

/-- An open long trade with quantity 1 and no partial exits. -/
def tradeQty1 : Trade :=
  { symbol := "SPY"
    direction := TradeDirection.LONG
    strategy_name := "ORB"
    entry_price := some 100
    quantity := 1
    status := TradeStatus.OPEN }

/-- C9 witness: two half-quantity exits of the unit-quantity trade respect
the discipline, and the recorded total stays within the trade quantity. -/
theorem exited_quantity_le_quantity_witness :
    (applyPartialExits tradeQty1
        [⟨101, 1 / 2, 1, none⟩, ⟨102, 1 / 2, 2, none⟩]).exited_quantity
      ≤ (applyPartialExits tradeQty1
        [⟨101, 1 / 2, 1, none⟩, ⟨102, 1 / 2, 2, none⟩]).quantity := by
  refine exited_quantity_le_quantity tradeQty1 _ ?_ ?_
  · norm_num [tradeQty1, Trade.exited_quantity]
  · refine ⟨?_, ?_, trivial⟩ <;>
      norm_num [tradeQty1, Trade.exited_quantity]

/-- C9 counterexample: `add_partial_exit` happily records an exit of
quantity 2 on a trade of total quantity 1, so the claimed invariant fails
on the code as written. -/
theorem add_partial_exit_can_exceed_quantity :
    (tradeQty1.add_partial_exit 101 2 1).exited_quantity = 2
    ∧ ¬ ((tradeQty1.add_partial_exit 101 2 1).exited_quantity
          ≤ (tradeQty1.add_partial_exit 101 2 1).quantity) := by
  constructor <;>
    norm_num [tradeQty1, Trade.add_partial_exit, Trade.exited_quantity]

/-- The trade-update slice of `BaseStrategy.close_trade`
(`strategies/base_strategy.py`, lines 460-480): set exit price/time, mark
`CLOSED`, store the reason, and grade the result by the sign of the per-unit
P&L.  The Python subtraction would raise on a trade with no entry price;
that case is modelled as `none`. -/
def closeTradeUpdate (t : Trade) (exit_price : ℚ) (now : ℕ)
    (reason : String) : Option Trade :=
  match t.entry_price with
  | none => none
  | some e =>
      let pl : ℚ :=
        match t.direction with
        | TradeDirection.LONG => exit_price - e
        | TradeDirection.SHORT => e - exit_price
      some { t with
        exit_price := some exit_price
        exit_time := some now
        status := TradeStatus.CLOSED
        notes := some reason
        result :=
          if pl > 0 then TradeResult.WIN
          else if pl < 0 then TradeResult.LOSS
          else TradeResult.BREAKEVEN }

/-- The per-symbol slice of a strategy's trade collections:
`active_trades[symbol]` and `completed_trades` of
`strategies/base_strategy.py`. -/
structure StrategyTradeState where
  active : Option Trade
  completed : List Trade
deriving Repr, DecidableEq

/-- `BaseStrategy.close_trade` (`strategies/base_strategy.py`, lines
429-504) on the per-symbol slice: no-op without an active trade or when the
broker call fails; otherwise update the trade, clear the active slot, and
append to the completed list.  Returns the closed trade alongside the new
state. -/
def close_trade (st : StrategyTradeState) (brokerOk : Bool)
    (exit_price : ℚ) (now : ℕ) (reason : String) :
    StrategyTradeState × Option Trade :=
  match st.active with
  | none => (st, none)
  | some trade =>
      if brokerOk then
        match closeTradeUpdate trade exit_price now reason with
        | some t2 => (⟨none, st.completed ++ [t2]⟩, some t2)
        | none => (st, none)
      else (st, none)

/-- `ORBStrategy._check_for_exits` (`strategies/orb_strategy.py`, lines
556-604): the stop-loss comparison runs first and returns immediately; only
then is the take-profit comparison made.  Both close at the breached level,
never at the candle extreme.  The Python comparison would raise on a trade
whose stop or target is unset; that case is modelled as no action. -/
def check_for_exits (st : StrategyTradeState) (brokerOk : Bool)
    (candle : Candle) (now : ℕ) : StrategyTradeState × Option Trade :=
  match st.active with
  | none => (st, none)
  | some trade =>
      match trade.stop_loss, trade.take_profit with
      | some sl, some tp =>
          match trade.direction with
          | TradeDirection.LONG =>
              if candle.low_price ≤ sl then
                close_trade st brokerOk sl now "Stop loss hit"
              else if candle.high_price ≥ tp then
                close_trade st brokerOk tp now "Take profit hit"
              else (st, none)
          | TradeDirection.SHORT =>
              if candle.high_price ≥ sl then
                close_trade st brokerOk sl now "Stop loss hit"
              else if candle.low_price ≤ tp then
                close_trade st brokerOk tp now "Take profit hit"
              else (st, none)
      | _, _ => (st, none)

/-- With an active trade that has an entry price and a successful broker
call, `close_trade` emits a closed trade carrying exactly the exit price
and reason it was called with. -/
theorem close_trade_sets_exit_price (st : StrategyTradeState) (trade : Trade)
    (e exit_price : ℚ) (now : ℕ) (reason : String)
    (hact : st.active = some trade) (he : trade.entry_price = some e) :
    ∃ t2, (close_trade st true exit_price now reason).2 = some t2
      ∧ t2.exit_price = some exit_price ∧ t2.notes = some reason := by
  simp only [close_trade, closeTradeUpdate, hact, he, if_true]
  exact ⟨_, rfl, rfl, rfl⟩

/-- C4: on every candle of an open trade the stop-loss comparison is made
before the take-profit comparison — a long trade whose candle reaches both
the stop and the target closes at exactly the stop price, symmetrically for
shorts — and any exit produced closes at the breached stop or target level,
never at the candle's actual extreme. -/
theorem check_for_exits_stop_before_target (st : StrategyTradeState)
    (candle : Candle) (now : ℕ) (trade : Trade) (sl tp e : ℚ)
    (hact : st.active = some trade)
    (hsl : trade.stop_loss = some sl) (htp : trade.take_profit = some tp)
    (he : trade.entry_price = some e) :
    (trade.direction = TradeDirection.LONG → candle.low_price ≤ sl →
      ∃ t2, (check_for_exits st true candle now).2 = some t2
        ∧ t2.exit_price = some sl ∧ t2.notes = some "Stop loss hit")
    ∧ (trade.direction = TradeDirection.LONG → ¬ candle.low_price ≤ sl →
        tp ≤ candle.high_price →
      ∃ t2, (check_for_exits st true candle now).2 = some t2
        ∧ t2.exit_price = some tp ∧ t2.notes = some "Take profit hit")
    ∧ (trade.direction = TradeDirection.SHORT → sl ≤ candle.high_price →
      ∃ t2, (check_for_exits st true candle now).2 = some t2
        ∧ t2.exit_price = some sl ∧ t2.notes = some "Stop loss hit")
    ∧ (trade.direction = TradeDirection.SHORT → ¬ sl ≤ candle.high_price →
        candle.low_price ≤ tp →
      ∃ t2, (check_for_exits st true candle now).2 = some t2
        ∧ t2.exit_price = some tp ∧ t2.notes = some "Take profit hit")
    ∧ (∀ t2, (check_for_exits st true candle now).2 = some t2 →
        t2.exit_price = some sl ∨ t2.exit_price = some tp) := by
  have hred : check_for_exits st true candle now =
      match trade.direction with
      | TradeDirection.LONG =>
          if candle.low_price ≤ sl then
            close_trade st true sl now "Stop loss hit"
          else if candle.high_price ≥ tp then
            close_trade st true tp now "Take profit hit"
          else (st, none)
      | TradeDirection.SHORT =>
          if candle.high_price ≥ sl then
            close_trade st true sl now "Stop loss hit"
          else if candle.low_price ≤ tp then
            close_trade st true tp now "Take profit hit"
          else (st, none) := by
    simp only [check_for_exits, hact, hsl, htp]
  refine ⟨?_, ?_, ?_, ?_, ?_⟩
  · intro hdir hstop
    rw [hred, hdir, if_pos hstop]
    exact close_trade_sets_exit_price st trade e sl now "Stop loss hit" hact he
  · intro hdir hstop htarget
    rw [hred, hdir, if_neg hstop, if_pos htarget]
    exact close_trade_sets_exit_price st trade e tp now "Take profit hit" hact he
  · intro hdir hstop
    rw [hred, hdir, if_pos hstop]
    exact close_trade_sets_exit_price st trade e sl now "Stop loss hit" hact he
  · intro hdir hstop htarget
    rw [hred, hdir, if_neg hstop, if_pos htarget]
    exact close_trade_sets_exit_price st trade e tp now "Take profit hit" hact he
  · intro t2 h2
    rw [hred] at h2
    cases hdir : trade.direction with
    | LONG =>
        rw [hdir] at h2
        by_cases h1 : candle.low_price ≤ sl
        · rw [if_pos h1] at h2
          obtain ⟨t3, h3, h4, _⟩ :=
            close_trade_sets_exit_price st trade e sl now "Stop loss hit" hact he
          rw [h3] at h2
          exact Or.inl (Option.some_injective _ h2 ▸ h4)
        · rw [if_neg h1] at h2
          by_cases h5 : candle.high_price ≥ tp
          · rw [if_pos h5] at h2
            obtain ⟨t3, h3, h4, _⟩ :=
              close_trade_sets_exit_price st trade e tp now "Take profit hit" hact he
            rw [h3] at h2
            exact Or.inr (Option.some_injective _ h2 ▸ h4)
          · rw [if_neg h5] at h2
            exact absurd h2 (by simp)
    | SHORT =>
        rw [hdir] at h2
        by_cases h1 : candle.high_price ≥ sl
        · rw [if_pos h1] at h2
          obtain ⟨t3, h3, h4, _⟩ :=
            close_trade_sets_exit_price st trade e sl now "Stop loss hit" hact he
          rw [h3] at h2
          exact Or.inl (Option.some_injective _ h2 ▸ h4)
        · rw [if_neg h1] at h2
          by_cases h5 : candle.low_price ≤ tp
          · rw [if_pos h5] at h2
            obtain ⟨t3, h3, h4, _⟩ :=
              close_trade_sets_exit_price st trade e tp now "Take profit hit" hact he
            rw [h3] at h2
            exact Or.inr (Option.some_injective _ h2 ▸ h4)
          · rw [if_neg h5] at h2
            exact absurd h2 (by simp)

/-- An open long trade entered at 102 with stop 100 and target 105. -/
def tradeLongOpen : Trade :=
  { symbol := "SPY"
    direction := TradeDirection.LONG
    strategy_name := "ORB"
    entry_price := some 102
    stop_loss := some 100
    take_profit := some 105
    quantity := 1
    status := TradeStatus.OPEN }

/-- A candle that touches both the stop and the target of `tradeLongOpen`:
low 99.5, high 106. -/
def candleBothSides : Candle :=
  { symbol := "SPY"
    timestamp := 0
    open_price := 101
    high_price := 106
    low_price := 199 / 2
    close_price := 104
    volume := 0
    timeframe := 1
    is_complete := true }

/-- C4 witness: the spec scenario — a long trade with stop 100 and target
105 sees a candle with low 99.5 and high 106, and closes at exactly the
stop price 100 with the stop-loss reason. -/
theorem check_for_exits_stop_before_target_witness :
    ∃ t2, (check_for_exits ⟨some tradeLongOpen, []⟩ true candleBothSides 7).2
        = some t2
      ∧ t2.exit_price = some 100 ∧ t2.notes = some "Stop loss hit" := by
  refine (check_for_exits_stop_before_target ⟨some tradeLongOpen, []⟩
    candleBothSides 7 tradeLongOpen 100 105 102 rfl rfl rfl rfl).1 rfl ?_
  norm_num [candleBothSides]

/-- Per-direction retest tracking of the ORB strategy:
`self.retests[symbol]["high"/"low"]` in `strategies/orb_strategy.py`. -/
structure RetestSide where
  in_progress : Bool
  confirmed : Bool
  candles : List Candle
deriving Repr, DecidableEq

/-- Per-symbol opening-range state of the ORB strategy
(`strategies/orb_strategy.py`): the identified opening range with its
high/low level prices, the breakout flags, the two retest trackers, and
the retest records appended to the two levels by `Level.add_retest`. -/
structure ORBState where
  identified : Bool
  orh_price : ℚ
  orl_price : ℚ
  breakout_high : Bool
  breakout_low : Bool
  retest_high : RetestSide
  retest_low : RetestSide
  orh_retests : List (ℕ × ℚ)
  orl_retests : List (ℕ × ℚ)
deriving Repr, DecidableEq

/-- The high-side block of `ORBStrategy._check_for_retests`
(`strategies/orb_strategy.py`, lines 365-402): while a high breakout is
recorded and the retest not yet confirmed, a candle whose low comes within
`retest_threshold` of the ORH price starts or extends the accumulated
candle list (recording the retest on the level when it starts); once the
list holds at least `confirmation_candles` candles and the most recent
close is back above the ORH price, the retest is confirmed.  A candle away
from the level cancels an unconfirmed retest in progress when its low is
more than `2 * retest_threshold` below the ORH price. -/
def checkHighRetest (retest_threshold : ℚ) (confirmation_candles : ℕ)
    (st : ORBState) (candle : Candle) : ORBState :=
  if st.breakout_high && !st.retest_high.confirmed then
    if |candle.low_price - st.orh_price| ≤ st.orh_price * retest_threshold then
      let started : Bool := st.retest_high.in_progress
      let side : RetestSide :=
        if started then
          { st.retest_high with candles := st.retest_high.candles ++ [candle] }
        else
          { in_progress := true
            confirmed := st.retest_high.confirmed
            candles := [candle] }
      let recs :=
        if started then st.orh_retests
        else st.orh_retests ++ [(candle.timestamp, candle.low_price)]
      let side : RetestSide :=
        if confirmation_candles ≤ side.candles.length then
          match side.candles.getLast? with
          | some last =>
              if last.close_price > st.orh_price then
                { side with confirmed := true }
              else side
          | none => side
        else side
      { st with retest_high := side, orh_retests := recs }
    else
      if st.retest_high.in_progress && !st.retest_high.confirmed
          && decide (candle.low_price
                < st.orh_price - st.orh_price * retest_threshold * 2) then
        { st with retest_high :=
            { in_progress := false
              confirmed := st.retest_high.confirmed
              candles := [] } }
      else st
  else st

/-- The low-side block of `ORBStrategy._check_for_retests`
(`strategies/orb_strategy.py`, lines 404-441), the mirror image of the
high-side block: nearness is measured from the candle high to the ORL
price, and confirmation needs the most recent close back below it. -/
def checkLowRetest (retest_threshold : ℚ) (confirmation_candles : ℕ)
    (st : ORBState) (candle : Candle) : ORBState :=
  if st.breakout_low && !st.retest_low.confirmed then
    if |candle.high_price - st.orl_price| ≤ st.orl_price * retest_threshold then
      let started : Bool := st.retest_low.in_progress
      let side : RetestSide :=
        if started then
          { st.retest_low with candles := st.retest_low.candles ++ [candle] }
        else
          { in_progress := true
            confirmed := st.retest_low.confirmed
            candles := [candle] }
      let recs :=
        if started then st.orl_retests
        else st.orl_retests ++ [(candle.timestamp, candle.high_price)]
      let side : RetestSide :=
        if confirmation_candles ≤ side.candles.length then
          match side.candles.getLast? with
          | some last =>
              if last.close_price < st.orl_price then
                { side with confirmed := true }
              else side
          | none => side
        else side
      { st with retest_low := side, orl_retests := recs }
    else
      if st.retest_low.in_progress && !st.retest_low.confirmed
          && decide (candle.high_price
                > st.orl_price + st.orl_price * retest_threshold * 2) then
        { st with retest_low :=
            { in_progress := false
              confirmed := st.retest_low.confirmed
              candles := [] } }
      else st
  else st

/-- `ORBStrategy._check_for_retests` (`strategies/orb_strategy.py`, lines
346-441): nothing happens until the opening range is identified; then the
high-side block runs, followed by the low-side block on the updated
state. -/
def check_for_retests (retest_threshold : ℚ) (confirmation_candles : ℕ)
    (st : ORBState) (candle : Candle) : ORBState :=
  if !st.identified then st
  else
    checkLowRetest retest_threshold confirmation_candles
      (checkHighRetest retest_threshold confirmation_candles st candle) candle

/-- A stream of execution-timeframe candles run through
`_check_for_retests` in order. -/
def process_retests (retest_threshold : ℚ) (confirmation_candles : ℕ)
    (st : ORBState) (candles : List Candle) : ORBState :=
  candles.foldl (check_for_retests retest_threshold confirmation_candles) st

/-- The confirmation invariant of one retest side: a confirmed tracker
holds at least `confirmation_candles` accumulated candles and its most
recent candle closed beyond the anchor in the breakout direction
(`above = true` for the high side, `false` for the low side). -/
def RetestSideInv (confirmation_candles : ℕ) (anchor : ℚ) (above : Bool)
    (side : RetestSide) : Prop :=
  side.confirmed = true →
    confirmation_candles ≤ side.candles.length ∧
    ∃ last, side.candles.getLast? = some last ∧
      (if above then last.close_price > anchor else last.close_price < anchor)

/-- The confirmation step of the high-side retest block: starting from an
unconfirmed tracker, it can only set `confirmed` when the accumulated count
has reached the threshold and the most recent close is above the anchor. -/
theorem retest_confirm_high_inv (N : ℕ) (anchor : ℚ) (side1 : RetestSide)
    (h1 : side1.confirmed = false) :
    RetestSideInv N anchor true
      (if N ≤ side1.candles.length then
         match side1.candles.getLast? with
         | some last =>
             if last.close_price > anchor then { side1 with confirmed := true }
             else side1
         | none => side1
       else side1) := by
  by_cases hlen : N ≤ side1.candles.length
  · rw [if_pos hlen]
    cases hlast : side1.candles.getLast? with
    | none =>
        intro hc
        rw [h1] at hc
        cases hc
    | some last =>
        dsimp only
        by_cases hclose : last.close_price > anchor
        · rw [if_pos hclose]
          intro _
          exact ⟨hlen, last, hlast, by simpa using hclose⟩
        · rw [if_neg hclose]
          intro hc
          rw [h1] at hc
          cases hc
  · rw [if_neg hlen]
    intro hc
    rw [h1] at hc
    cases hc

/-- The confirmation step of the low-side retest block, mirror image of
`retest_confirm_high_inv`. -/
theorem retest_confirm_low_inv (N : ℕ) (anchor : ℚ) (side1 : RetestSide)
    (h1 : side1.confirmed = false) :
    RetestSideInv N anchor false
      (if N ≤ side1.candles.length then
         match side1.candles.getLast? with
         | some last =>
             if last.close_price < anchor then { side1 with confirmed := true }
             else side1
         | none => side1
       else side1) := by
  by_cases hlen : N ≤ side1.candles.length
  · rw [if_pos hlen]
    cases hlast : side1.candles.getLast? with
    | none =>
        intro hc
        rw [h1] at hc
        cases hc
    | some last =>
        dsimp only
        by_cases hclose : last.close_price < anchor
        · rw [if_pos hclose]
          intro _
          exact ⟨hlen, last, hlast, by simpa using hclose⟩
        · rw [if_neg hclose]
          intro hc
          rw [h1] at hc
          cases hc
  · rw [if_neg hlen]
    intro hc
    rw [h1] at hc
    cases hc

/-- The high-side retest block only writes the high-side tracker and the
ORH retest records: level prices, breakout flags, and the low-side tracker
are untouched. -/
theorem checkHighRetest_fields (r : ℚ) (N : ℕ) (st : ORBState) (c : Candle) :
    (checkHighRetest r N st c).orh_price = st.orh_price
    ∧ (checkHighRetest r N st c).orl_price = st.orl_price
    ∧ (checkHighRetest r N st c).retest_low = st.retest_low := by
  unfold checkHighRetest
  split
  · split
    · exact ⟨rfl, rfl, rfl⟩
    · split
      · exact ⟨rfl, rfl, rfl⟩
      · exact ⟨rfl, rfl, rfl⟩
  · exact ⟨rfl, rfl, rfl⟩

/-- The low-side retest block only writes the low-side tracker and the ORL
retest records: level prices, breakout flags, and the high-side tracker are
untouched. -/
theorem checkLowRetest_fields (r : ℚ) (N : ℕ) (st : ORBState) (c : Candle) :
    (checkLowRetest r N st c).orh_price = st.orh_price
    ∧ (checkLowRetest r N st c).orl_price = st.orl_price
    ∧ (checkLowRetest r N st c).retest_high = st.retest_high := by
  unfold checkLowRetest
  split
  · split
    · exact ⟨rfl, rfl, rfl⟩
    · split
      · exact ⟨rfl, rfl, rfl⟩
      · exact ⟨rfl, rfl, rfl⟩
  · exact ⟨rfl, rfl, rfl⟩

/-- The high-side retest block preserves the confirmation invariant of the
high-side tracker. -/
theorem checkHighRetest_preserves_inv (r : ℚ) (N : ℕ) (st : ORBState)
    (c : Candle) (h : RetestSideInv N st.orh_price true st.retest_high) :
    RetestSideInv N st.orh_price true (checkHighRetest r N st c).retest_high := by
  unfold checkHighRetest
  by_cases hg : (st.breakout_high && !st.retest_high.confirmed) = true
  · have hconf : st.retest_high.confirmed = false := by
      rcases Bool.and_eq_true_iff.mp hg with ⟨_, hne⟩
      simpa using hne
    rw [if_pos hg]
    by_cases hnear : |c.low_price - st.orh_price| ≤ st.orh_price * r
    · rw [if_pos hnear]
      dsimp only
      cases hin : st.retest_high.in_progress with
      | true =>
          simp only [hin, if_true]
          exact retest_confirm_high_inv N st.orh_price
            ⟨true, st.retest_high.confirmed, st.retest_high.candles ++ [c]⟩ hconf
      | false =>
          simp only [hin, Bool.false_eq_true, if_false]
          exact retest_confirm_high_inv N st.orh_price
            ⟨true, st.retest_high.confirmed, [c]⟩ hconf
    · rw [if_neg hnear]
      split
      · intro hc
        have hc2 : st.retest_high.confirmed = true := hc
        rw [hconf] at hc2
        cases hc2
      · exact h
  · rw [if_neg hg]
    exact h

/-- The low-side retest block preserves the confirmation invariant of the
low-side tracker. -/
theorem checkLowRetest_preserves_inv (r : ℚ) (N : ℕ) (st : ORBState)
    (c : Candle) (h : RetestSideInv N st.orl_price false st.retest_low) :
    RetestSideInv N st.orl_price false (checkLowRetest r N st c).retest_low := by
  unfold checkLowRetest
  by_cases hg : (st.breakout_low && !st.retest_low.confirmed) = true
  · have hconf : st.retest_low.confirmed = false := by
      rcases Bool.and_eq_true_iff.mp hg with ⟨_, hne⟩
      simpa using hne
    rw [if_pos hg]
    by_cases hnear : |c.high_price - st.orl_price| ≤ st.orl_price * r
    · rw [if_pos hnear]
      dsimp only
      cases hin : st.retest_low.in_progress with
      | true =>
          simp only [hin, if_true]
          exact retest_confirm_low_inv N st.orl_price
            ⟨true, st.retest_low.confirmed, st.retest_low.candles ++ [c]⟩ hconf
      | false =>
          simp only [hin, Bool.false_eq_true, if_false]
          exact retest_confirm_low_inv N st.orl_price
            ⟨true, st.retest_low.confirmed, [c]⟩ hconf
    · rw [if_neg hnear]
      split
      · intro hc
        have hc2 : st.retest_low.confirmed = true := hc
        rw [hconf] at hc2
        cases hc2
      · exact h
  · rw [if_neg hg]
    exact h

/-- The combined confirmation invariant over both retest trackers. -/
def ORBRetestInv (N : ℕ) (st : ORBState) : Prop :=
  RetestSideInv N st.orh_price true st.retest_high ∧
  RetestSideInv N st.orl_price false st.retest_low

/-- One `_check_for_retests` call preserves the combined confirmation
invariant. -/
theorem check_for_retests_preserves_inv (r : ℚ) (N : ℕ) (st : ORBState)
    (c : Candle) (h : ORBRetestInv N st) :
    ORBRetestInv N (check_for_retests r N st c) := by
  unfold check_for_retests
  by_cases hid : (!st.identified) = true
  · rw [if_pos hid]
    exact h
  · rw [if_neg hid]
    have hf1 := checkHighRetest_fields r N st c
    have hinvH1 : RetestSideInv N (checkHighRetest r N st c).orh_price true
        (checkHighRetest r N st c).retest_high := by
      rw [hf1.1]
      exact checkHighRetest_preserves_inv r N st c h.1
    have hinvL1 : RetestSideInv N (checkHighRetest r N st c).orl_price false
        (checkHighRetest r N st c).retest_low := by
      rw [hf1.2.1, hf1.2.2]
      exact h.2
    have hf2 := checkLowRetest_fields r N (checkHighRetest r N st c) c
    constructor
    · rw [hf2.1, hf2.2.2]
      exact hinvH1
    · rw [hf2.2.1]
      exact checkLowRetest_preserves_inv r N (checkHighRetest r N st c) c hinvL1

/-- Feeding any candle stream through `_check_for_retests` preserves the
combined confirmation invariant. -/
theorem process_retests_inv (r : ℚ) (N : ℕ) (st : ORBState)
    (candles : List Candle) (h : ORBRetestInv N st) :
    ORBRetestInv N (process_retests r N st candles) := by
  induction candles generalizing st with
  | nil => exact h
  | cons c cs ih => exact ih _ (check_for_retests_preserves_inv r N st c h)

/-- C5: starting from the initial retest state (nothing in progress,
nothing confirmed, empty candle lists), after any candle sequence a
`confirmed` flag can only be true if the accumulated candle list holds at
least `confirmation_candles` candles and its most recent candle closed
beyond the anchor level in the breakout's direction; in particular, after
any sequence leaving fewer candles, or a last close not beyond the anchor,
`confirmed` is still false. -/
theorem retest_confirmed_requires_count_and_close (r : ℚ) (N : ℕ)
    (st0 : ORBState) (candles : List Candle)
    (hh : st0.retest_high = ⟨false, false, []⟩)
    (hl : st0.retest_low = ⟨false, false, []⟩) :
    ((process_retests r N st0 candles).retest_high.confirmed = true →
      N ≤ (process_retests r N st0 candles).retest_high.candles.length ∧
      ∃ last, (process_retests r N st0 candles).retest_high.candles.getLast?
          = some last
        ∧ last.close_price > (process_retests r N st0 candles).orh_price)
    ∧ ((process_retests r N st0 candles).retest_low.confirmed = true →
      N ≤ (process_retests r N st0 candles).retest_low.candles.length ∧
      ∃ last, (process_retests r N st0 candles).retest_low.candles.getLast?
          = some last
        ∧ last.close_price < (process_retests r N st0 candles).orl_price) := by
  have h0 : ORBRetestInv N st0 := by
    constructor
    · intro hc
      rw [hh] at hc
      cases hc
    · intro hc
      rw [hl] at hc
      cases hc
  obtain ⟨h1, h2⟩ := process_retests_inv r N st0 candles h0
  constructor
  · intro hc
    obtain ⟨hlen, last, hlast, hcl⟩ := h1 hc
    exact ⟨hlen, last, hlast, by simpa using hcl⟩
  · intro hc
    obtain ⟨hlen, last, hlast, hcl⟩ := h2 hc
    exact ⟨hlen, last, hlast, by simpa using hcl⟩

/-- An identified opening range (ORH 101, ORL 99) with a recorded high
breakout and pristine retest trackers. -/
def orbStart : ORBState :=
  { identified := true
    orh_price := 101
    orl_price := 99
    breakout_high := true
    breakout_low := false
    retest_high := ⟨false, false, []⟩
    retest_low := ⟨false, false, []⟩
    orh_retests := []
    orl_retests := [] }

/-- A candle that retests the ORH level at 101 and closes back above it. -/
def candleRetest : Candle :=
  { symbol := "SPY"
    timestamp := 60
    open_price := 101
    high_price := 103
    low_price := 101
    close_price := 102
    volume := 1
    timeframe := 1
    is_complete := true }

/-- C5 witness: after the single retest candle the high-side tracker is
confirmed, and the invariant yields its accumulated count and a last close
above the anchor. -/
theorem retest_confirmed_requires_count_and_close_witness :
    1 ≤ (process_retests 1 1 orbStart [candleRetest]).retest_high.candles.length
    ∧ ∃ last,
        (process_retests 1 1 orbStart
            [candleRetest]).retest_high.candles.getLast? = some last
        ∧ last.close_price
            > (process_retests 1 1 orbStart [candleRetest]).orh_price := by
  refine (retest_confirmed_requires_count_and_close 1 1 orbStart
    [candleRetest] rfl rfl).1 ?_
  norm_num [process_retests, check_for_retests, checkHighRetest,
    checkLowRetest, orbStart, candleRetest]

/-- The bucket start computed by `CandleBuilder._update_from_smaller_timeframe`
(`data/candle_builder.py`, lines 79-85), on seconds:
`timestamp.replace(minute=(minutes // timeframe) * timeframe, second=0,
microsecond=0)` keeps the hour and floors the minute-of-hour to a multiple
of the timeframe. -/
def bucketStart (timeframe : ℕ) (t : ℕ) : ℕ :=
  t / 3600 * 3600 + t % 3600 / 60 / timeframe * timeframe * 60

/-- Candle builder state, from `data/candle_builder.py`
(`CandleBuilder.__init__`); the `last_update` wall-clock stamp is write-only
bookkeeping and is dropped. -/
structure CandleBuilder where
  symbol : String
  timeframe : ℕ
  current_candle : Option Candle
deriving Repr, DecidableEq

/-- The candle opened for a fresh bucket, seeded from the input's OHLCV
(`data/candle_builder.py`, lines 88-101 and 132-143). -/
def newPending (b : CandleBuilder) (c : Candle) : Candle :=
  { symbol := b.symbol
    timestamp := bucketStart b.timeframe c.timestamp
    open_price := c.open_price
    high_price := c.high_price
    low_price := c.low_price
    close_price := c.close_price
    volume := c.volume
    timeframe := b.timeframe
    is_complete := false }

/-- The in-bucket merge (`data/candle_builder.py`, lines 104-116):
`high = max`, `low = min`, `close = input.close`, `volume += input.volume`. -/
def mergeCandle (cur c : Candle) : Candle :=
  { cur with
    high_price := max cur.high_price c.high_price
    low_price := min cur.low_price c.low_price
    close_price := c.close_price
    volume := cur.volume + c.volume }

/-- `CandleBuilder._update_from_smaller_timeframe`
(`data/candle_builder.py`, lines 68-146): open a candle when none exists;
merge into the current bucket (finalizing in place should the input reach the
next boundary); on a new bucket, finalize the previous candle and open a new
one from the input.  Returns the completed candle, if any, with the new
builder state. -/
def CandleBuilder.update_from_smaller (b : CandleBuilder) (candle : Candle) :
    Option Candle × CandleBuilder :=
  let start := bucketStart b.timeframe candle.timestamp
  match b.current_candle with
  | none => (none, { b with current_candle := some (newPending b candle) })
  | some cur =>
      if cur.timestamp = start then
        let cur2 := mergeCandle cur candle
        if start + b.timeframe * 60 ≤ candle.timestamp then
          (some { cur2 with is_complete := true },
           { b with current_candle := none })
        else
          (none, { b with current_candle := some cur2 })
      else
        (some { cur with is_complete := true },
         { b with current_candle := some (newPending b candle) })

/-- `CandleBuilder.update` (`data/candle_builder.py`, lines 30-66): reject a
wrong symbol; pass an already-complete candle of the own timeframe through,
clearing state; aggregate a smaller-timeframe candle; ignore a larger one;
store an incomplete candle of the own timeframe as current. -/
def CandleBuilder.update (b : CandleBuilder) (candle : Candle) :
    Option Candle × CandleBuilder :=
  if candle.symbol ≠ b.symbol then (none, b)
  else if candle.is_complete && candle.timeframe == b.timeframe then
    (some candle, { b with current_candle := none })
  else if candle.timeframe < b.timeframe then
    b.update_from_smaller candle
  else if b.timeframe < candle.timeframe then
    (none, b)
  else
    (none, { b with current_candle := some candle })

/-- A stream of candles fed through `CandleBuilder.update` in order,
collecting the completed candles it emits. -/
def CandleBuilder.run (b : CandleBuilder) : List Candle → List Candle × CandleBuilder
  | [] => ([], b)
  | c :: cs =>
      let step := b.update c
      let rest := step.2.run cs
      (match step.1 with
       | some x => x :: rest.1
       | none => rest.1, rest.2)

/-- Reference aggregation: split the stream into maximal runs of inputs
sharing a bucket start, fold each run with the in-bucket merge seeded from
its first input, emit every merged run but the last as complete, and keep
the last as the pending candle. -/
def aggRuns (b : CandleBuilder) : List Candle → List Candle × Option Candle
  | [] => ([], none)
  | c :: cs =>
      let bkt := bucketStart b.timeframe c.timestamp
      let run := cs.takeWhile (fun x => bucketStart b.timeframe x.timestamp == bkt)
      let rest := cs.dropWhile (fun x => bucketStart b.timeframe x.timestamp == bkt)
      let merged := run.foldl mergeCandle (newPending b c)
      match rest with
      | [] => ([], some merged)
      | _ :: _ =>
          let next := aggRuns b rest
          ({ merged with is_complete := true } :: next.1, next.2)
  termination_by l => l.length
  decreasing_by
    exact Nat.lt_succ_of_le ((List.dropWhile_sublist _).length_le)

/-- Every timestamp lies strictly before the next boundary of its own
bucket, so the in-merge finalization branch of
`_update_from_smaller_timeframe` (lines 118-124) can never fire. -/
theorem timestamp_lt_bucket_next (T t : ℕ) (hT : 0 < T) :
    t < bucketStart T t + T * 60 := by
  unfold bucketStart
  have h1 : t % 3600 / 60 % T < T := Nat.mod_lt _ hT
  have h2 := Nat.div_add_mod (t % 3600 / 60) T
  have h3 := Nat.div_add_mod t 3600
  have h4 := Nat.div_add_mod (t % 3600) 60
  have h5 : t % 3600 % 60 < 60 := Nat.mod_lt _ (by norm_num)
  have h6 : t % 3600 < 3600 := Nat.mod_lt _ (by norm_num)
  have h7 : t % 3600 / 60 / T * T = T * (t % 3600 / 60 / T) := Nat.mul_comm _ _
  omega

/-- Bucket starts are monotone in the timestamp. -/
theorem bucketStart_mono (T : ℕ) {t1 t2 : ℕ} (h : t1 ≤ t2) :
    bucketStart T t1 ≤ bucketStart T t2 := by
  unfold bucketStart
  rcases Nat.lt_or_ge (t1 / 3600) (t2 / 3600) with hlt | hge
  · have ha : t1 % 3600 / 60 / T * T ≤ t1 % 3600 / 60 := Nat.div_mul_le_self _ _
    have hb : t1 % 3600 < 3600 := Nat.mod_lt _ (by norm_num)
    omega
  · have heq : t1 / 3600 = t2 / 3600 :=
      Nat.le_antisymm (Nat.div_le_div_right h) hge
    have hm : t1 % 3600 ≤ t2 % 3600 := by omega
    have hm2 : t1 % 3600 / 60 / T ≤ t2 % 3600 / 60 / T :=
      Nat.div_le_div_right (Nat.div_le_div_right hm)
    have hm3 := Nat.mul_le_mul_right T hm2
    omega

/-- When the timeframe divides the hour, every bucket start is a multiple
of the bucket width, so two distinct bucket starts are at least a full
bucket apart. -/
theorem bucketStart_gap (T : ℕ) (hT : 0 < T) (hdvd : T ∣ 60) (t1 t2 : ℕ)
    (h : bucketStart T t1 < bucketStart T t2) :
    bucketStart T t1 + T * 60 ≤ bucketStart T t2 := by
  obtain ⟨k, hk⟩ := hdvd
  have hmul : ∀ t : ℕ, T * 60 ∣ bucketStart T t := by
    intro t
    unfold bucketStart
    have h36 : (3600 : ℕ) = T * 60 * k := by
      calc (3600 : ℕ) = 60 * 60 := by norm_num
      _ = T * k * 60 := by rw [← hk]
      _ = T * 60 * k := by ring
    have h1 : T * 60 ∣ t / 3600 * 3600 := ⟨t / 3600 * k, by rw [h36]; ring⟩
    have h2 : T * 60 ∣ t % 3600 / 60 / T * T * 60 :=
      ⟨t % 3600 / 60 / T, by ring⟩
    exact Nat.dvd_add h1 h2
  obtain ⟨a, ha⟩ := hmul t1
  obtain ⟨b, hb⟩ := hmul t2
  rw [ha, hb] at h ⊢
  have hTpos : 0 < T * 60 := by positivity
  have : a < b := lt_of_mul_lt_mul_left h (le_of_lt hTpos)
  calc T * 60 * a + T * 60 = T * 60 * (a + 1) := by ring
  _ ≤ T * 60 * b := Nat.mul_le_mul_left _ this

/-- For a matching symbol and a strictly smaller timeframe,
`CandleBuilder.update` defers to `_update_from_smaller_timeframe`. -/
theorem update_eq_smaller (b : CandleBuilder) (c : Candle)
    (hs : c.symbol = b.symbol) (ht : c.timeframe < b.timeframe) :
    b.update c = b.update_from_smaller c := by
  unfold CandleBuilder.update
  rw [if_neg (by simp [hs])]
  rw [if_neg (by simp [Nat.ne_of_lt ht])]
  rw [if_pos ht]

/-- Reference aggregation continued from a pending candle: merge the
initial run of inputs sharing the pending candle's bucket, then emit and
recurse on the remainder. -/
def aggFrom (b : CandleBuilder) (cur : Candle) (cs : List Candle) :
    List Candle × Option Candle :=
  let run := cs.takeWhile (fun x => bucketStart b.timeframe x.timestamp == cur.timestamp)
  let rest := cs.dropWhile (fun x => bucketStart b.timeframe x.timestamp == cur.timestamp)
  let merged := run.foldl mergeCandle cur
  match rest with
  | [] => ([], some merged)
  | _ :: _ =>
      let next := aggRuns b rest
      ({ merged with is_complete := true } :: next.1, next.2)

/-- Unfolding `aggRuns` on a nonempty stream: seed a pending candle from
the head and continue with `aggFrom`. -/
theorem aggRuns_cons (b : CandleBuilder) (c : Candle) (cs : List Candle) :
    aggRuns b (c :: cs) = aggFrom b (newPending b c) cs := by
  rw [aggRuns]
  simp only [aggFrom, newPending]

/-- An input in the pending candle's bucket merges into it. -/
theorem aggFrom_cons_mem (b : CandleBuilder) (cur c : Candle)
    (cs : List Candle)
    (h : bucketStart b.timeframe c.timestamp = cur.timestamp) :
    aggFrom b cur (c :: cs) = aggFrom b (mergeCandle cur c) cs := by
  have hpred : (bucketStart b.timeframe c.timestamp == cur.timestamp) = true := by
    simpa using h
  have hts : (mergeCandle cur c).timestamp = cur.timestamp := rfl
  unfold aggFrom
  simp only [List.takeWhile_cons, List.dropWhile_cons, hpred, if_true,
    List.foldl_cons, hts]

/-- An input outside the pending candle's bucket finalizes it and starts
the next run. -/
theorem aggFrom_cons_notmem (b : CandleBuilder) (cur c : Candle)
    (cs : List Candle)
    (h : ¬ bucketStart b.timeframe c.timestamp = cur.timestamp) :
    aggFrom b cur (c :: cs) =
      ({ cur with is_complete := true } :: (aggRuns b (c :: cs)).1,
       (aggRuns b (c :: cs)).2) := by
  have hpred : (bucketStart b.timeframe c.timestamp == cur.timestamp) = false := by
    simpa using h
  unfold aggFrom
  simp only [List.takeWhile_cons, List.dropWhile_cons, hpred, Bool.false_eq_true,
    if_false, List.foldl_nil]

/-- Running the builder from a pending candle agrees with the reference
aggregation continued from that candle. -/
theorem run_from_some (b : CandleBuilder) (cur : Candle) (cs : List Candle)
    (hT : 0 < b.timeframe)
    (hs : ∀ x ∈ cs, x.symbol = b.symbol)
    (ht : ∀ x ∈ cs, x.timeframe < b.timeframe) :
    ({ b with current_candle := some cur } : CandleBuilder).run cs
      = ((aggFrom b cur cs).1,
         { b with current_candle := (aggFrom b cur cs).2 }) := by
  induction cs generalizing cur with
  | nil => simp [CandleBuilder.run, aggFrom]
  | cons c cs ih =>
      have hsc : c.symbol = b.symbol := hs c (by simp)
      have htc : c.timeframe < b.timeframe := ht c (by simp)
      have hs2 : ∀ x ∈ cs, x.symbol = b.symbol := fun x hx => hs x (by simp [hx])
      have ht2 : ∀ x ∈ cs, x.timeframe < b.timeframe := fun x hx => ht x (by simp [hx])
      by_cases hb : cur.timestamp = bucketStart b.timeframe c.timestamp
      · have hdead : ¬ (bucketStart b.timeframe c.timestamp + b.timeframe * 60
            ≤ c.timestamp) := by
          have := timestamp_lt_bucket_next b.timeframe c.timestamp hT
          omega
        have hstep : ({ b with current_candle := some cur } : CandleBuilder).update c
            = (none, { b with current_candle := some (mergeCandle cur c) }) := by
          rw [update_eq_smaller { b with current_candle := some cur } c hsc htc]
          simp only [CandleBuilder.update_from_smaller]
          rw [if_pos hb, if_neg hdead]
        simp only [CandleBuilder.run, hstep]
        rw [ih (mergeCandle cur c) hs2 ht2]
        rw [aggFrom_cons_mem b cur c cs hb.symm]
      · have hstep : ({ b with current_candle := some cur } : CandleBuilder).update c
            = (some { cur with is_complete := true },
               { b with current_candle := some (newPending b c) }) := by
          rw [update_eq_smaller { b with current_candle := some cur } c hsc htc]
          simp only [CandleBuilder.update_from_smaller]
          rw [if_neg hb]
          rfl
        simp only [CandleBuilder.run, hstep]
        rw [ih (newPending b c) hs2 ht2]
        rw [aggFrom_cons_notmem b cur c cs (fun hh => hb hh.symm), aggRuns_cons]

/-- A fresh builder run over a stream of same-symbol, smaller-timeframe
candles is exactly the reference run aggregation: one merged candle per
maximal run of equal bucket starts, all but the last emitted as complete,
the last left pending. -/
theorem run_eq_aggRuns (b : CandleBuilder) (cs : List Candle)
    (hcur : b.current_candle = none) (hT : 0 < b.timeframe)
    (hs : ∀ x ∈ cs, x.symbol = b.symbol)
    (ht : ∀ x ∈ cs, x.timeframe < b.timeframe) :
    b.run cs = ((aggRuns b cs).1,
      { b with current_candle := (aggRuns b cs).2 }) := by
  obtain ⟨sym, tf, cc⟩ := b
  have hcc : cc = none := hcur
  subst hcc
  cases cs with
  | nil => simp [CandleBuilder.run, aggRuns]
  | cons c cs =>
      have hsc : c.symbol = sym := hs c (by simp)
      have htc : c.timeframe < tf := ht c (by simp)
      have hs2 : ∀ x ∈ cs, x.symbol = sym := fun x hx => hs x (by simp [hx])
      have ht2 : ∀ x ∈ cs, x.timeframe < tf := fun x hx => ht x (by simp [hx])
      have hstep : (CandleBuilder.mk sym tf none).update c
          = (none, { CandleBuilder.mk sym tf none with
              current_candle := some (newPending ⟨sym, tf, none⟩ c) }) := by
        rw [update_eq_smaller ⟨sym, tf, none⟩ c hsc htc]
        simp only [CandleBuilder.update_from_smaller]
      simp only [CandleBuilder.run, hstep]
      rw [run_from_some ⟨sym, tf, none⟩ (newPending ⟨sym, tf, none⟩ c) cs hT hs2 ht2]
      rw [aggRuns_cons]

/-- Folding the in-bucket merge over a run keeps the seed's timestamp,
timeframe and completion flag, sums the volumes, and computes the maximum
high and minimum low over the seed and the run. -/
theorem foldl_mergeCandle_fields (run : List Candle) (cur : Candle) :
    (run.foldl mergeCandle cur).timestamp = cur.timestamp
    ∧ (run.foldl mergeCandle cur).timeframe = cur.timeframe
    ∧ (run.foldl mergeCandle cur).is_complete = cur.is_complete
    ∧ (run.foldl mergeCandle cur).volume = cur.volume + (run.map Candle.volume).sum
    ∧ cur.high_price ≤ (run.foldl mergeCandle cur).high_price
    ∧ (∀ x ∈ run, x.high_price ≤ (run.foldl mergeCandle cur).high_price)
    ∧ ((run.foldl mergeCandle cur).high_price = cur.high_price
        ∨ ∃ x ∈ run, (run.foldl mergeCandle cur).high_price = x.high_price)
    ∧ (run.foldl mergeCandle cur).low_price ≤ cur.low_price
    ∧ (∀ x ∈ run, (run.foldl mergeCandle cur).low_price ≤ x.low_price)
    ∧ ((run.foldl mergeCandle cur).low_price = cur.low_price
        ∨ ∃ x ∈ run, (run.foldl mergeCandle cur).low_price = x.low_price) := by
  induction run generalizing cur with
  | nil => simp
  | cons c run ih =>
      obtain ⟨h1, h2, h3, h4, h5, h6, h7, h8, h9, h10⟩ := ih (mergeCandle cur c)
      rw [List.foldl_cons]
      refine ⟨h1, h2, h3, ?_, ?_, ?_, ?_, ?_, ?_, ?_⟩
      · rw [h4]
        simp only [mergeCandle, List.map_cons, List.sum_cons]
        ring
      · exact le_trans (le_max_left _ _) h5
      · intro x hx
        rcases List.mem_cons.mp hx with rfl | hx2
        · exact le_trans (le_max_right _ _) h5
        · exact h6 x hx2
      · rcases h7 with heq | ⟨x, hx, heq⟩
        · rcases max_choice cur.high_price c.high_price with hm | hm
          · left; rw [heq]; exact hm
          · right; exact ⟨c, by simp, by rw [heq]; exact hm⟩
        · right; exact ⟨x, by simp [hx], heq⟩
      · exact le_trans h8 (min_le_left _ _)
      · intro x hx
        rcases List.mem_cons.mp hx with rfl | hx2
        · exact le_trans h8 (min_le_right _ _)
        · exact h9 x hx2
      · rcases h10 with heq | ⟨x, hx, heq⟩
        · rcases min_choice cur.low_price c.low_price with hm | hm
          · left; rw [heq]; exact hm
          · right; exact ⟨c, by simp, by rw [heq]; exact hm⟩
        · right; exact ⟨x, by simp [hx], heq⟩

/-- Bucket starts are fixed points of the bucket computation. -/
theorem bucketStart_idem (T t : ℕ) (hT : 0 < T) :
    bucketStart T (bucketStart T t) = bucketStart T t := by
  have hm : t % 3600 / 60 < 60 := by omega
  have hx : t % 3600 / 60 / T * T ≤ t % 3600 / 60 := Nat.div_mul_le_self _ _
  have hcancel : t % 3600 / 60 / T * T / T = t % 3600 / 60 / T :=
    Nat.mul_div_cancel _ hT
  unfold bucketStart
  have hdiv : (t / 3600 * 3600 + t % 3600 / 60 / T * T * 60) / 3600
      = t / 3600 := by omega
  have hmod : (t / 3600 * 3600 + t % 3600 / 60 / T * T * 60) % 3600
      = t % 3600 / 60 / T * T * 60 := by omega
  rw [hdiv, hmod]
  have h60 : t % 3600 / 60 / T * T * 60 / 60 = t % 3600 / 60 / T * T := by omega
  rw [h60, hcancel]

/-- The first input a `dropWhile` keeps fails the predicate. -/
theorem head_dropWhile_false {α : Type} (p : α → Bool) (l : List α) (y : α)
    (ys : List α) (h : l.dropWhile p = y :: ys) : p y = false := by
  induction l with
  | nil => simp at h
  | cons a l ih =>
      rw [List.dropWhile_cons] at h
      by_cases hp : p a = true
      · rw [if_pos hp] at h
        exact ih h
      · rw [if_neg hp] at h
        cases h
        simpa using hp

/-- The inputs belonging to one bucket. -/
def bucketClass (T : ℕ) (cs : List Candle) (ts : ℕ) : List Candle :=
  cs.filter (fun x => bucketStart T x.timestamp == ts)

/-- Along a stream whose bucket starts never drop below `ts` and never
decrease, the inputs of bucket `ts` form a prefix: filtering equals taking
the initial run. -/
theorem filter_eq_takeWhile_of_mono (T : ℕ) (ts : ℕ) (l : List Candle)
    (hmono : l.Pairwise
      (fun a c => bucketStart T a.timestamp ≤ bucketStart T c.timestamp))
    (hge : ∀ x ∈ l, ts ≤ bucketStart T x.timestamp) :
    l.filter (fun x => bucketStart T x.timestamp == ts)
      = l.takeWhile (fun x => bucketStart T x.timestamp == ts) := by
  induction l with
  | nil => rfl
  | cons c l ih =>
      rcases List.pairwise_cons.mp hmono with ⟨hc, hmono2⟩
      by_cases hp : bucketStart T c.timestamp = ts
      · have hp2 : (bucketStart T c.timestamp == ts) = true := by simpa using hp
        rw [List.filter_cons, List.takeWhile_cons, hp2]
        simp only [if_true]
        rw [ih hmono2 (fun x hx => hge x (by simp [hx]))]
      · have hp2 : (bucketStart T c.timestamp == ts) = false := by simpa using hp
        rw [List.filter_cons, List.takeWhile_cons, hp2]
        simp only [Bool.false_eq_true, if_false]
        rw [List.filter_eq_nil_iff]
        intro x hx
        have h1 : ts ≤ bucketStart T c.timestamp := hge c (by simp)
        have h2 : ts < bucketStart T c.timestamp := lt_of_le_of_ne h1 (Ne.symm hp)
        have h3 : bucketStart T c.timestamp ≤ bucketStart T x.timestamp := hc x hx
        simp only [beq_iff_eq]
        omega

/-- A prefix with no input in the bucket contributes nothing to its class. -/
theorem bucketClass_skip_prefix (T : ℕ) (pre rest : List Candle) (ts : ℕ)
    (h : ∀ y ∈ pre, ¬ bucketStart T y.timestamp = ts) :
    bucketClass T (pre ++ rest) ts = bucketClass T rest ts := by
  have hnil : pre.filter (fun x => bucketStart T x.timestamp == ts) = [] := by
    rw [List.filter_eq_nil_iff]
    intro y hy
    simpa using h y hy
  unfold bucketClass
  rw [List.filter_append, hnil, List.nil_append]

/-- What the claim asserts of one emitted candle: it carries the
aggregator's timeframe, is complete, sits on a bucket boundary, and its
volume, high and low are the sum, maximum and minimum over the inputs of
its bucket. -/
def GoodAgg (T : ℕ) (cs : List Candle) (e : Candle) : Prop :=
  e.timeframe = T ∧ e.is_complete = true
  ∧ e.timestamp = bucketStart T e.timestamp
  ∧ bucketClass T cs e.timestamp ≠ []
  ∧ e.volume = ((bucketClass T cs e.timestamp).map Candle.volume).sum
  ∧ (∀ x ∈ bucketClass T cs e.timestamp, x.high_price ≤ e.high_price)
  ∧ (∃ x ∈ bucketClass T cs e.timestamp, e.high_price = x.high_price)
  ∧ (∀ x ∈ bucketClass T cs e.timestamp, e.low_price ≤ x.low_price)
  ∧ (∃ x ∈ bucketClass T cs e.timestamp, e.low_price = x.low_price)

/-- `GoodAgg` only looks at the stream through the bucket class of the
candle's timestamp. -/
theorem GoodAgg_congr (T : ℕ) (cs1 cs2 : List Candle) (e : Candle)
    (h : bucketClass T cs1 e.timestamp = bucketClass T cs2 e.timestamp)
    (hg : GoodAgg T cs1 e) : GoodAgg T cs2 e := by
  unfold GoodAgg at hg ⊢
  rw [h] at hg
  exact hg

/-- The reference aggregation satisfies the claim: every emitted candle is
good for its bucket, consecutive emitted candles are a full bucket apart in
order, and every emitted timestamp is the bucket start of some input. -/
def AggSpec (b : CandleBuilder) (cs : List Candle) : Prop :=
  (∀ e ∈ (aggRuns b cs).1, GoodAgg b.timeframe cs e)
  ∧ (aggRuns b cs).1.Chain'
      (fun e f => e.timestamp + b.timeframe * 60 ≤ f.timestamp)
  ∧ (∀ e ∈ (aggRuns b cs).1,
      ∃ x ∈ cs, e.timestamp = bucketStart b.timeframe x.timestamp)

set_option maxHeartbeats 1000000 in
theorem aggRuns_spec_aux (b : CandleBuilder) (hT : 0 < b.timeframe)
    (hdvd : b.timeframe ∣ 60) :
    ∀ (n : ℕ) (cs : List Candle), cs.length ≤ n →
      cs.Pairwise (fun a c => a.timestamp ≤ c.timestamp) →
      AggSpec b cs := by
  intro n
  induction n with
  | zero =>
      intro cs hlen _
      have hnil : cs = [] := List.length_eq_zero.mp (Nat.le_zero.mp hlen)
      subst hnil
      refine ⟨?_, ?_, ?_⟩ <;> rw [aggRuns] <;> simp
  | succ n ih =>
      intro cs0 hlen hmono
      cases cs0 with
      | nil =>
          refine ⟨?_, ?_, ?_⟩ <;> rw [aggRuns] <;> simp
      | cons c cs =>
          rcases List.pairwise_cons.mp hmono with ⟨hc, hmono2⟩
          have hlen2 : cs.length ≤ n := by simpa using hlen
          have hbmono : cs.Pairwise (fun a d =>
              bucketStart b.timeframe a.timestamp
                ≤ bucketStart b.timeframe d.timestamp) :=
            hmono2.imp (fun h => bucketStart_mono b.timeframe h)
          have hge : ∀ x ∈ cs,
              bucketStart b.timeframe c.timestamp
                ≤ bucketStart b.timeframe x.timestamp :=
            fun x hx => bucketStart_mono b.timeframe (hc x hx)
          have hclass : bucketClass b.timeframe cs (bucketStart b.timeframe c.timestamp)
              = cs.takeWhile (fun x => bucketStart b.timeframe x.timestamp
                  == bucketStart b.timeframe c.timestamp) :=
            filter_eq_takeWhile_of_mono _ _ cs hbmono hge
          have hclasscons : bucketClass b.timeframe (c :: cs)
              (bucketStart b.timeframe c.timestamp)
              = c :: cs.takeWhile (fun x => bucketStart b.timeframe x.timestamp
                  == bucketStart b.timeframe c.timestamp) := by
            unfold bucketClass at hclass ⊢
            rw [List.filter_cons]
            simp only [beq_self_eq_true, if_true, hclass]
          unfold AggSpec
          rw [aggRuns_cons b c cs]
          unfold aggFrom
          simp only [newPending]
          cases hrest : cs.dropWhile (fun x => bucketStart b.timeframe x.timestamp
              == bucketStart b.timeframe c.timestamp) with
          | nil => refine ⟨?_, ?_, ?_⟩ <;> simp
          | cons r rest2 =>
              have hrfalse : ((fun x => bucketStart b.timeframe x.timestamp
                  == bucketStart b.timeframe c.timestamp) r) = false :=
                head_dropWhile_false _ cs r rest2 hrest
              have hrne : ¬ bucketStart b.timeframe r.timestamp
                  = bucketStart b.timeframe c.timestamp := by simpa using hrfalse
              have hsub : List.Sublist (r :: rest2) cs := by
                rw [← hrest]
                exact List.dropWhile_sublist _
              have hrmem : r ∈ cs := hsub.subset (by simp)
              have hrgt : bucketStart b.timeframe c.timestamp
                  < bucketStart b.timeframe r.timestamp :=
                lt_of_le_of_ne (hge r hrmem) (Ne.symm hrne)
              have hlen3 : (r :: rest2).length ≤ n := by
                calc (r :: rest2).length
                    = (cs.dropWhile (fun x => bucketStart b.timeframe x.timestamp
                        == bucketStart b.timeframe c.timestamp)).length := by rw [hrest]
                _ ≤ cs.length := (List.dropWhile_sublist _).length_le
                _ ≤ n := hlen2
              have hmono3 : (r :: rest2).Pairwise
                  (fun a d => a.timestamp ≤ d.timestamp) := hmono2.sublist hsub
              obtain ⟨IH1, IH2, IH3⟩ := ih (r :: rest2) hlen3 hmono3
              have htailgt : ∀ e ∈ (aggRuns b (r :: rest2)).1,
                  bucketStart b.timeframe c.timestamp < e.timestamp := by
                intro e he
                obtain ⟨x, hx, hex⟩ := IH3 e he
                rcases List.mem_cons.mp hx with rfl | hx2
                · rw [hex]
                  exact hrgt
                · have h1 : r.timestamp ≤ x.timestamp :=
                    (List.pairwise_cons.mp hmono3).1 x hx2
                  have h2 : bucketStart b.timeframe r.timestamp
                      ≤ bucketStart b.timeframe x.timestamp :=
                    bucketStart_mono _ h1
                  rw [hex]
                  omega
              have hdecomp : c :: cs
                  = (c :: cs.takeWhile (fun x => bucketStart b.timeframe x.timestamp
                      == bucketStart b.timeframe c.timestamp)) ++ (r :: rest2) := by
                rw [← hrest, List.cons_append, List.takeWhile_append_dropWhile]
              have hprefix : ∀ y ∈ (c :: cs.takeWhile (fun x =>
                    bucketStart b.timeframe x.timestamp
                      == bucketStart b.timeframe c.timestamp)),
                  bucketStart b.timeframe y.timestamp
                    = bucketStart b.timeframe c.timestamp := by
                intro y hy
                rcases List.mem_cons.mp hy with rfl | hy2
                · rfl
                · simpa using List.mem_takeWhile_imp hy2
              have hclasslift : ∀ e ∈ (aggRuns b (r :: rest2)).1,
                  bucketClass b.timeframe (c :: cs) e.timestamp
                    = bucketClass b.timeframe (r :: rest2) e.timestamp := by
                intro e he
                rw [hdecomp]
                refine bucketClass_skip_prefix _ _ _ _ ?_
                intro y hy
                have h1 := hprefix y hy
                have h2 := htailgt e he
                omega
              obtain ⟨f1, f2, f3, f4, f5, f6, f7, f8, f9, f10⟩ :=
                foldl_mergeCandle_fields
                  (cs.takeWhile (fun x => bucketStart b.timeframe x.timestamp
                    == bucketStart b.timeframe c.timestamp))
                  { symbol := b.symbol
                    timestamp := bucketStart b.timeframe c.timestamp
                    open_price := c.open_price
                    high_price := c.high_price
                    low_price := c.low_price
                    close_price := c.close_price
                    volume := c.volume
                    timeframe := b.timeframe
                    is_complete := false }
              have hts1 : ({ (cs.takeWhile (fun x => bucketStart b.timeframe x.timestamp
                    == bucketStart b.timeframe c.timestamp)).foldl mergeCandle
                  { symbol := b.symbol
                    timestamp := bucketStart b.timeframe c.timestamp
                    open_price := c.open_price
                    high_price := c.high_price
                    low_price := c.low_price
                    close_price := c.close_price
                    volume := c.volume
                    timeframe := b.timeframe
                    is_complete := false } with is_complete := true } : Candle).timestamp
                  = bucketStart b.timeframe c.timestamp := f1
              refine ⟨?_, ?_, ?_⟩
              · intro e he
                rcases List.mem_cons.mp he with rfl | he2
                · unfold GoodAgg
                  refine ⟨f2, rfl, ?_, ?_, ?_, ?_, ?_, ?_, ?_⟩
                  · rw [hts1]
                    exact (bucketStart_idem b.timeframe c.timestamp hT).symm
                  · rw [hts1, hclasscons]
                    simp
                  · rw [hts1, hclasscons, List.map_cons, List.sum_cons]
                    exact f4
                  · rw [hts1, hclasscons]
                    intro x hx
                    rcases List.mem_cons.mp hx with rfl | hx2
                    · exact f5
                    · exact f6 x hx2
                  · rw [hts1, hclasscons]
                    rcases f7 with h | ⟨x, hx, hxe⟩
                    · exact ⟨c, by simp, h⟩
                    · exact ⟨x, by simp [hx], hxe⟩
                  · rw [hts1, hclasscons]
                    intro x hx
                    rcases List.mem_cons.mp hx with rfl | hx2
                    · exact f8
                    · exact f9 x hx2
                  · rw [hts1, hclasscons]
                    rcases f10 with h | ⟨x, hx, hxe⟩
                    · exact ⟨c, by simp, h⟩
                    · exact ⟨x, by simp [hx], hxe⟩
                · exact GoodAgg_congr _ _ _ _ (hclasslift e he2).symm (IH1 e he2)
              · rw [List.chain'_cons']
                refine ⟨?_, IH2⟩
                intro f hf
                have hfmem : f ∈ (aggRuns b (r :: rest2)).1 :=
                  List.mem_of_mem_head? hf
                have h1 := htailgt f hfmem
                obtain ⟨x, hx, hex⟩ := IH3 f hfmem
                rw [hts1, hex]
                rw [hex] at h1
                exact bucketStart_gap _ hT hdvd _ _ h1
              · intro e he
                rcases List.mem_cons.mp he with rfl | he2
                · exact ⟨c, by simp, hts1⟩
                · obtain ⟨x, hx, hex⟩ := IH3 e he2
                  exact ⟨x, List.mem_cons_of_mem _ (hsub.subset hx), hex⟩

/-- C7 (amended): a fresh aggregator of `T` minutes with `T` dividing 60,
fed same-symbol candles of strictly smaller timeframe in non-decreasing
timestamp order, emits only completed candles that each cover exactly one
`T`-minute bucket — timestamp on a bucket boundary, timeframe `T`, and
high, low and volume equal to the maximum, minimum and sum over the inputs
merged into that bucket — and consecutive emitted candles occupy
non-overlapping buckets in chronological order, successive bucket starts
lying at least `T` minutes apart. -/
theorem candle_builder_tiles_buckets (b : CandleBuilder) (cs : List Candle)
    (hcur : b.current_candle = none) (hT : 0 < b.timeframe)
    (hdvd : b.timeframe ∣ 60)
    (hs : ∀ x ∈ cs, x.symbol = b.symbol)
    (ht : ∀ x ∈ cs, x.timeframe < b.timeframe)
    (hmono : cs.Pairwise (fun a c => a.timestamp ≤ c.timestamp)) :
    (∀ e ∈ (b.run cs).1, GoodAgg b.timeframe cs e)
    ∧ (b.run cs).1.Chain'
        (fun e f => e.timestamp + b.timeframe * 60 ≤ f.timestamp) := by
  have hrun := run_eq_aggRuns b cs hcur hT hs ht
  have hout : (b.run cs).1 = (aggRuns b cs).1 := by rw [hrun]
  obtain ⟨A1, A2, _⟩ := aggRuns_spec_aux b hT hdvd cs.length cs le_rfl hmono
  rw [hout]
  exact ⟨A1, A2⟩

/-- A fresh five-minute aggregator for SPY. -/
def builder5 : CandleBuilder :=
  { symbol := "SPY", timeframe := 5, current_candle := none }

/-- A one-minute SPY candle at a given start second with flat prices. -/
def minuteCandle (t : ℕ) (price : ℚ) : Candle :=
  { symbol := "SPY"
    timestamp := t
    open_price := price
    high_price := price
    low_price := price
    close_price := price
    volume := 1
    timeframe := 1
    is_complete := true }

/-- C7 counterexample: fed out of chronological order — minutes 5, 0, 10 —
the aggregator emits the 00:05 bucket before the 00:00 bucket, so for
arbitrary input sequences the emitted candles are neither in chronological
order nor a bucket apart. -/
theorem candle_builder_out_of_order_unordered :
    ((builder5.run [minuteCandle 300 1, minuteCandle 0 2,
        minuteCandle 600 3]).1.map Candle.timestamp = [300, 0])
    ∧ ¬ ((builder5.run [minuteCandle 300 1, minuteCandle 0 2,
        minuteCandle 600 3]).1.Chain'
          (fun e f => e.timestamp + builder5.timeframe * 60 ≤ f.timestamp)) := by
  constructor
  · rfl
  · intro hch
    have hlist : (builder5.run [minuteCandle 300 1, minuteCandle 0 2,
        minuteCandle 600 3]).1
        = [ { symbol := "SPY", timestamp := 300, open_price := 1,
              high_price := 1, low_price := 1, close_price := 1, volume := 1,
              timeframe := 5, is_complete := true },
            { symbol := "SPY", timestamp := 0, open_price := 2,
              high_price := 2, low_price := 2, close_price := 2, volume := 1,
              timeframe := 5, is_complete := true } ] := rfl
    rw [hlist, List.chain'_cons] at hch
    have h2 := hch.1
    simp [builder5] at h2

/-- C7 witness: three in-order minute candles (00:00, 00:01, 00:05) — the
emitted candle is good for its bucket and the output is chronologically
bucket-separated. -/
theorem candle_builder_tiles_buckets_witness :
    (∀ e ∈ (builder5.run [minuteCandle 0 1, minuteCandle 60 2,
        minuteCandle 300 3]).1,
      GoodAgg builder5.timeframe
        [minuteCandle 0 1, minuteCandle 60 2, minuteCandle 300 3] e)
    ∧ (builder5.run [minuteCandle 0 1, minuteCandle 60 2,
        minuteCandle 300 3]).1.Chain'
        (fun e f => e.timestamp + builder5.timeframe * 60 ≤ f.timestamp) :=
  candle_builder_tiles_buckets builder5
    [minuteCandle 0 1, minuteCandle 60 2, minuteCandle 300 3]
    rfl (by decide) (by decide) (by decide) (by decide) (by decide)

/-- The per-(symbol, timeframe) slice of the data feed state
(`data/data_feed.py`, `DataFeed.__init__`): candle builder, candle history,
registered candle callbacks, registered level callbacks and watched price
levels.  A callback is modelled as a pure function that may raise,
`Except.error` standing for a Python exception. -/
structure DataFeedState where
  builder : CandleBuilder
  candle_history : List Candle
  candle_callbacks : List (Candle → Except String Unit)
  level_callbacks : List (ℚ → Except String Unit)
  price_levels : List ℚ

/-- The dispatch loops of `DataFeed._on_candle_update` (lines 365-371 and
391-397): each callback runs inside `try/except`; an exception is caught
and logged (`some message`) and the loop continues with the next callback. -/
def runCallbacks {α : Type} (cbs : List (α → Except String Unit)) (arg : α) :
    List (Option String) :=
  cbs.map (fun cb =>
    match cb arg with
    | Except.ok _ => none
    | Except.error e => some e)

/-- `DataFeed._on_candle_update` (`data/data_feed.py`, lines 334-397) on the
per-(symbol, timeframe) slice: run the builder, append a completed candle to
history and notify the candle callbacks, then evaluate level crossings
against the latest two closes and notify the level callbacks per crossed
level.  Returns the new state, the candle-callback log and the per-crossed-
level callback logs. -/
def on_candle_update (st : DataFeedState) (candle : Candle) :
    DataFeedState × List (Option String) × List (List (Option String)) :=
  let step := st.builder.update candle
  let res :=
    match step.1 with
    | some complete_candle =>
        (st.candle_history ++ [complete_candle],
         runCallbacks st.candle_callbacks complete_candle)
    | none => (st.candle_history, [])
  let level_logs :=
    if st.price_levels.isEmpty then []
    else
      match res.1.getLast? with
      | some last_candle =>
          let last_price := last_candle.close_price
          let current_price := candle.close_price
          (st.price_levels.filter (fun level =>
              (decide (last_price < level) && decide (current_price ≥ level))
              || (decide (last_price > level) && decide (current_price ≤ level)))).map
            (fun level => runCallbacks st.level_callbacks level)
      | none => []
  ({ st with builder := step.2, candle_history := res.1 },
   (res.2, level_logs))

/-- C8: dispatch faults are isolated — the outcome log has one entry per
registered callback, each entry is that callback's own outcome independent
of any earlier callback's fault, a raising callback has its error logged at
its position while the rest still run, and the feed's candle history and
builder state after dispatch do not depend on the callbacks at all, so a
fault leaves them unchanged. -/
theorem callback_fault_isolation (st : DataFeedState) (candle : Candle)
    (cbs2 : List (Candle → Except String Unit))
    (lcbs2 : List (ℚ → Except String Unit)) :
    ((runCallbacks st.candle_callbacks candle).length
        = st.candle_callbacks.length)
    ∧ (∀ i, (runCallbacks st.candle_callbacks candle).get? i
        = (st.candle_callbacks.get? i).map (fun cb =>
            match cb candle with
            | Except.ok _ => none
            | Except.error e => some e))
    ∧ (∀ i cb e, st.candle_callbacks.get? i = some cb →
        cb candle = Except.error e →
        (runCallbacks st.candle_callbacks candle).get? i = some (some e))
    ∧ (∀ (level : ℚ) i, (runCallbacks st.level_callbacks level).get? i
        = (st.level_callbacks.get? i).map (fun cb =>
            match cb level with
            | Except.ok _ => none
            | Except.error e => some e))
    ∧ ((on_candle_update st candle).1.candle_history
        = (on_candle_update
            { st with candle_callbacks := cbs2, level_callbacks := lcbs2 }
            candle).1.candle_history)
    ∧ ((on_candle_update st candle).1.builder
        = (on_candle_update
            { st with candle_callbacks := cbs2, level_callbacks := lcbs2 }
            candle).1.builder) := by
  refine ⟨List.length_map _ _, ?_, ?_, ?_, ?_, ?_⟩
  · intro i
    simp only [runCallbacks]
    exact List.get?_map _ _ _
  · intro i cb e hget herr
    simp only [runCallbacks]
    rw [List.get?_map, hget]
    simp [herr]
  · intro level i
    simp only [runCallbacks]
    exact List.get?_map _ _ _
  · cases h : (st.builder.update candle).1 <;>
      simp [on_candle_update, h]
  · cases h : (st.builder.update candle).1 <;>
      simp [on_candle_update, h]
